import Mathlib

/-!
Verification development for the ruma wire-format data model:
the `ErrorKind` error-object codec (`ruma-client-api/src/error/kind_serde.rs`)
and the composite key identifier `KeyId` (`ruma-identifiers/src/signatures.rs`).

The codec operates on an already-parsed generic key/value object, which we
model as an ordered list of string keys paired with loosely typed values.
-/

namespace Ruma

/-- A loosely typed JSON-like value, as handed to the codec by the transport
layer. The codec only ever inspects strings, integers and booleans; all other
values are buffered or passed through verbatim. -/
inductive JValue where
  | str (s : String)
  | int (n : Int)
  | bool (b : Bool)
  | null
  deriving DecidableEq, Repr

/-- The parsed discriminant, mirroring `enum ErrCode` in `kind_serde.rs`:
one constructor per canonical wire string plus the `_Custom` catch-all
holding the raw unrecognized string. -/
inductive ErrCode where
  | forbidden
  | unknownToken
  | missingToken
  | badJson
  | notJson
  | notFound
  | limitExceeded
  | unknown
  | unrecognized
  | unauthorized
  | userDeactivated
  | userInUse
  | invalidUsername
  | roomInUse
  | invalidRoomState
  | threepidInUse
  | threepidNotFound
  | threepidAuthFailed
  | threepidDenied
  | serverNotTrusted
  | unsupportedRoomVersion
  | incompatibleRoomVersion
  | badState
  | guestAccessForbidden
  | captchaNeeded
  | captchaInvalid
  | missingParam
  | invalidParam
  | tooLarge
  | exclusive
  | resourceLimitExceeded
  | cannotLeaveServerNoticeRoom
  | custom (errcode : String)
  deriving DecidableEq, Repr

/-- The fixed discriminant table, mirroring `impl<T> From<T> for ErrCode`:
every canonical `M_*` string maps to its variant, anything else to
`custom` carrying the raw string. -/
def ErrCode.ofString (s : String) : ErrCode :=
  if s = "M_FORBIDDEN" then .forbidden
  else if s = "M_UNKNOWN_TOKEN" then .unknownToken
  else if s = "M_MISSING_TOKEN" then .missingToken
  else if s = "M_BAD_JSON" then .badJson
  else if s = "M_NOT_JSON" then .notJson
  else if s = "M_NOT_FOUND" then .notFound
  else if s = "M_LIMIT_EXCEEDED" then .limitExceeded
  else if s = "M_UNKNOWN" then .unknown
  else if s = "M_UNRECOGNIZED" then .unrecognized
  else if s = "M_UNAUTHORIZED" then .unauthorized
  else if s = "M_USER_DEACTIVATED" then .userDeactivated
  else if s = "M_USER_IN_USE" then .userInUse
  else if s = "M_INVALID_USERNAME" then .invalidUsername
  else if s = "M_ROOM_IN_USE" then .roomInUse
  else if s = "M_INVALID_ROOM_STATE" then .invalidRoomState
  else if s = "M_THREEPID_IN_USE" then .threepidInUse
  else if s = "M_THREEPID_NOT_FOUND" then .threepidNotFound
  else if s = "M_THREEPID_AUTH_FAILED" then .threepidAuthFailed
  else if s = "M_THREEPID_DENIED" then .threepidDenied
  else if s = "M_SERVER_NOT_TRUSTED" then .serverNotTrusted
  else if s = "M_UNSUPPORTED_ROOM_VERSION" then .unsupportedRoomVersion
  else if s = "M_INCOMPATIBLE_ROOM_VERSION" then .incompatibleRoomVersion
  else if s = "M_BAD_STATE" then .badState
  else if s = "M_GUEST_ACCESS_FORBIDDEN" then .guestAccessForbidden
  else if s = "M_CAPTCHA_NEEDED" then .captchaNeeded
  else if s = "M_CAPTCHA_INVALID" then .captchaInvalid
  else if s = "M_MISSING_PARAM" then .missingParam
  else if s = "M_INVALID_PARAM" then .invalidParam
  else if s = "M_TOO_LARGE" then .tooLarge
  else if s = "M_EXCLUSIVE" then .exclusive
  else if s = "M_RESOURCE_LIMIT_EXCEEDED" then .resourceLimitExceeded
  else if s = "M_CANNOT_LEAVE_SERVER_NOTICE_ROOM" then .cannotLeaveServerNoticeRoom
  else .custom s

/-- A `std::time::Duration`, modelled as its total length in nanoseconds. -/
abbrev Duration : Type := Nat

/-- Mirrors `Duration::from_millis`. -/
def Duration.fromMillis (m : Nat) : Duration := m * 1000000

/-- Mirrors `Duration::as_millis` (whole milliseconds, truncating). -/
def Duration.asMillis (d : Duration) : Nat := d / 1000000

/-- Largest value of the `js_int::UInt` integer type used for
`retry_after_ms` on the wire: `2^53 - 1`, the largest integer exactly
representable in a JSON number. -/
def uintMax : Nat := 9007199254740991

/-- The `ErrorKind` tagged union from `ruma-client-api/src/error`: a closed
catalogue of error variants, four of which carry one payload field, plus the
open `custom` variant carrying the raw discriminant string and the mapping of
all unrecognized keys (the `BTreeMap` is modelled as a key-sorted association
list). -/
inductive ErrorKind where
  | forbidden
  | unknownToken (soft_logout : Bool)
  | missingToken
  | badJson
  | notJson
  | notFound
  | limitExceeded (retry_after_ms : Option Duration)
  | unknown
  | unrecognized
  | unauthorized
  | userDeactivated
  | userInUse
  | invalidUsername
  | roomInUse
  | invalidRoomState
  | threepidInUse
  | threepidNotFound
  | threepidAuthFailed
  | threepidDenied
  | serverNotTrusted
  | unsupportedRoomVersion
  | incompatibleRoomVersion (room_version : String)
  | badState
  | guestAccessForbidden
  | captchaNeeded
  | captchaInvalid
  | missingParam
  | invalidParam
  | tooLarge
  | exclusive
  | resourceLimitExceeded (admin_contact : String)
  | cannotLeaveServerNoticeRoom
  | custom (errcode : String) (extra : List (String × JValue))
  deriving DecidableEq, Repr

/-- Decode-side errors raised by the visitor: serde's `duplicate_field`,
`missing_field`, and the custom errors raised when a payload value fails to
parse at its expected type. -/
inductive DecodeError where
  | duplicateField (field : String)
  | missingField (field : String)
  | invalidValue (field : String)
  deriving DecidableEq, Repr

/-- Encode-side error: `UInt::try_from(duration.as_millis())` overflowing. -/
inductive EncodeError where
  | overflow
  deriving DecidableEq, Repr

/-- The accumulator state of `ErrorKindVisitor::visit_map`: the five optional
slots plus the `extra` map of unrecognized keys (sorted association list,
modelling the `BTreeMap`). -/
structure DecState where
  errcode : Option ErrCode
  soft_logout : Option JValue
  retry_after_ms : Option JValue
  room_version : Option JValue
  admin_contact : Option JValue
  extra : List (String × JValue)
  deriving DecidableEq, Repr

/-- The initial (all-empty) visitor state. -/
def DecState.init : DecState :=
  { errcode := none, soft_logout := none, retry_after_ms := none,
    room_version := none, admin_contact := none, extra := [] }

/-- Insertion into the `extra` `BTreeMap` through its `Entry` API: a vacant
key is inserted at its sorted position, an occupied key raises the
duplicate-field error. -/
def insertExtra : List (String × JValue) → String → JValue →
    Except DecodeError (List (String × JValue))
  | [], k, v => .ok [(k, v)]
  | (k', v') :: rest, k, v =>
    if k = k' then .error (.duplicateField k)
    else if k < k' then .ok ((k, v) :: (k', v') :: rest)
    else (insertExtra rest k v).map (fun r => (k', v') :: r)

/-- Deserialization of an `ErrCode` value (`deserialize_cow_str` followed by
the discriminant table): the wire value must be a string. -/
def parseErrCode (v : JValue) : Except DecodeError ErrCode :=
  match v with
  | .str s => .ok (ErrCode.ofString s)
  | _ => .error (.invalidValue "errcode")

/-- One arm of the `set_field!` macro for the four companion fields:
retain the raw value if the discriminant slot is still empty or already holds
this field's owning variant (failing with `duplicate_field` if the slot is
occupied), otherwise consume and ignore the value. -/
def setField (owner : ErrCode) (get : DecState → Option JValue)
    (set : DecState → JValue → DecState) (name : String)
    (st : DecState) (v : JValue) : Except DecodeError DecState :=
  match st.errcode with
  | none =>
    if (get st).isSome then .error (.duplicateField name) else .ok (set st v)
  | some c =>
    if c = owner then
      if (get st).isSome then .error (.duplicateField name) else .ok (set st v)
    else
      .ok st

/-- Processing of a single key/value entry in the `visit_map` loop. -/
def processKey (st : DecState) (k : String) (v : JValue) :
    Except DecodeError DecState :=
  if k = "errcode" then
    if st.errcode.isSome then .error (.duplicateField "errcode")
    else (parseErrCode v).map (fun c => { st with errcode := some c })
  else if k = "soft_logout" then
    setField .unknownToken (fun st => st.soft_logout)
      (fun st v => { st with soft_logout := some v }) "soft_logout" st v
  else if k = "retry_after_ms" then
    setField .limitExceeded (fun st => st.retry_after_ms)
      (fun st v => { st with retry_after_ms := some v }) "retry_after_ms" st v
  else if k = "room_version" then
    setField .incompatibleRoomVersion (fun st => st.room_version)
      (fun st v => { st with room_version := some v }) "room_version" st v
  else if k = "admin_contact" then
    setField .resourceLimitExceeded (fun st => st.admin_contact)
      (fun st v => { st with admin_contact := some v }) "admin_contact" st v
  else
    (insertExtra st.extra k v).map (fun e => { st with extra := e })

/-- The `while let Some(key) = map.next_key()?` loop of `visit_map`. -/
def decodeLoop : List (String × JValue) → DecState → Except DecodeError DecState
  | [], st => .ok st
  | (k, v) :: rest, st => (processKey st k v).bind (decodeLoop rest)

/-- Parse of the buffered `soft_logout` value at type `bool`
(`from_json_value::<bool>`). -/
def parseBool (v : JValue) : Except DecodeError Bool :=
  match v with
  | .bool b => .ok b
  | _ => .error (.invalidValue "soft_logout")

/-- Parse of the buffered `retry_after_ms` value at type `js_int::UInt`
(`from_json_value::<UInt>`): a non-negative integer of at most `uintMax`. -/
def parseUInt (v : JValue) : Except DecodeError Nat :=
  match v with
  | .int n => if 0 ≤ n ∧ n ≤ (uintMax : Int) then .ok n.toNat
              else .error (.invalidValue "retry_after_ms")
  | _ => .error (.invalidValue "retry_after_ms")

/-- Modelled from the spec: the room-version payload is "treated as an opaque
validated string" (its `RoomVersionId` parser lives outside the given
sources), so its wire value must be a string and is kept verbatim. -/
def parseRoomVersion (v : JValue) : Except DecodeError String :=
  match v with
  | .str s => .ok s
  | _ => .error (.invalidValue "room_version")

/-- Parse of the buffered `admin_contact` value at type `String`. -/
def parseAdminContact (v : JValue) : Except DecodeError String :=
  match v with
  | .str s => .ok s
  | _ => .error (.invalidValue "admin_contact")

/-- The tail of `visit_map`: require a discriminant, then build the final
`ErrorKind` from the buffered slots, per discriminant. -/
def finishDecode (st : DecState) : Except DecodeError ErrorKind :=
  match st.errcode with
  | none => .error (.missingField "errcode")
  | some code =>
    match code with
    | .forbidden => .ok .forbidden
    | .unknownToken =>
      match st.soft_logout with
      | none => .ok (.unknownToken false)
      | some v => (parseBool v).map ErrorKind.unknownToken
    | .missingToken => .ok .missingToken
    | .badJson => .ok .badJson
    | .notJson => .ok .notJson
    | .notFound => .ok .notFound
    | .limitExceeded =>
      match st.retry_after_ms with
      | none => .ok (.limitExceeded none)
      | some v =>
        (parseUInt v).map (fun m => .limitExceeded (some (Duration.fromMillis m)))
    | .unknown => .ok .unknown
    | .unrecognized => .ok .unrecognized
    | .unauthorized => .ok .unauthorized
    | .userDeactivated => .ok .userDeactivated
    | .userInUse => .ok .userInUse
    | .invalidUsername => .ok .invalidUsername
    | .roomInUse => .ok .roomInUse
    | .invalidRoomState => .ok .invalidRoomState
    | .threepidInUse => .ok .threepidInUse
    | .threepidNotFound => .ok .threepidNotFound
    | .threepidAuthFailed => .ok .threepidAuthFailed
    | .threepidDenied => .ok .threepidDenied
    | .serverNotTrusted => .ok .serverNotTrusted
    | .unsupportedRoomVersion => .ok .unsupportedRoomVersion
    | .incompatibleRoomVersion =>
      match st.room_version with
      | none => .error (.missingField "room_version")
      | some v => (parseRoomVersion v).map ErrorKind.incompatibleRoomVersion
    | .badState => .ok .badState
    | .guestAccessForbidden => .ok .guestAccessForbidden
    | .captchaNeeded => .ok .captchaNeeded
    | .captchaInvalid => .ok .captchaInvalid
    | .missingParam => .ok .missingParam
    | .invalidParam => .ok .invalidParam
    | .tooLarge => .ok .tooLarge
    | .exclusive => .ok .exclusive
    | .resourceLimitExceeded =>
      match st.admin_contact with
      | none => .error (.missingField "admin_contact")
      | some v => (parseAdminContact v).map ErrorKind.resourceLimitExceeded
    | .cannotLeaveServerNoticeRoom => .ok .cannotLeaveServerNoticeRoom
    | .custom s => .ok (.custom s st.extra)

/-- Full decode (`impl Deserialize for ErrorKind` through
`ErrorKindVisitor::visit_map`): the input object is the ordered list of its
key/value entries. -/
def decode (l : List (String × JValue)) : Except DecodeError ErrorKind :=
  (decodeLoop l DecState.init).bind finishDecode

/-- Modelled from the spec: the canonical wire string of each variant (the
`AsRef<str> for ErrorKind` impl lives outside the given sources) — the table
string for every catalogue variant, the raw stored string for `custom`. -/
def ErrorKind.wireString : ErrorKind → String
  | .forbidden => "M_FORBIDDEN"
  | .unknownToken _ => "M_UNKNOWN_TOKEN"
  | .missingToken => "M_MISSING_TOKEN"
  | .badJson => "M_BAD_JSON"
  | .notJson => "M_NOT_JSON"
  | .notFound => "M_NOT_FOUND"
  | .limitExceeded _ => "M_LIMIT_EXCEEDED"
  | .unknown => "M_UNKNOWN"
  | .unrecognized => "M_UNRECOGNIZED"
  | .unauthorized => "M_UNAUTHORIZED"
  | .userDeactivated => "M_USER_DEACTIVATED"
  | .userInUse => "M_USER_IN_USE"
  | .invalidUsername => "M_INVALID_USERNAME"
  | .roomInUse => "M_ROOM_IN_USE"
  | .invalidRoomState => "M_INVALID_ROOM_STATE"
  | .threepidInUse => "M_THREEPID_IN_USE"
  | .threepidNotFound => "M_THREEPID_NOT_FOUND"
  | .threepidAuthFailed => "M_THREEPID_AUTH_FAILED"
  | .threepidDenied => "M_THREEPID_DENIED"
  | .serverNotTrusted => "M_SERVER_NOT_TRUSTED"
  | .unsupportedRoomVersion => "M_UNSUPPORTED_ROOM_VERSION"
  | .incompatibleRoomVersion _ => "M_INCOMPATIBLE_ROOM_VERSION"
  | .badState => "M_BAD_STATE"
  | .guestAccessForbidden => "M_GUEST_ACCESS_FORBIDDEN"
  | .captchaNeeded => "M_CAPTCHA_NEEDED"
  | .captchaInvalid => "M_CAPTCHA_INVALID"
  | .missingParam => "M_MISSING_PARAM"
  | .invalidParam => "M_INVALID_PARAM"
  | .tooLarge => "M_TOO_LARGE"
  | .exclusive => "M_EXCLUSIVE"
  | .resourceLimitExceeded _ => "M_RESOURCE_LIMIT_EXCEEDED"
  | .cannotLeaveServerNoticeRoom => "M_CANNOT_LEAVE_SERVER_NOTICE_ROOM"
  | .custom s _ => s

/-- Full encode (`impl Serialize for ErrorKind`): emit the discriminant entry
first, then the variant's payload entry (omitting a `false` `soft_logout` and
an absent `retry_after_ms`, failing on millisecond overflow), or every `extra`
entry in map order for `custom`. -/
def encode (k : ErrorKind) : Except EncodeError (List (String × JValue)) :=
  let head : String × JValue := ("errcode", .str k.wireString)
  match k with
  | .unknownToken true => .ok [head, ("soft_logout", .bool true)]
  | .limitExceeded (some d) =>
    if d.asMillis ≤ uintMax then
      .ok [head, ("retry_after_ms", .int (d.asMillis : Int))]
    else
      .error .overflow
  | .incompatibleRoomVersion rv => .ok [head, ("room_version", .str rv)]
  | .resourceLimitExceeded ac => .ok [head, ("admin_contact", .str ac)]
  | .custom _ extra => .ok (head :: extra)
  | _ => .ok [head]

/-! The composite key identifier `KeyId<A, K>` from
`ruma-identifiers/src/signatures.rs`. Strings are modelled as `List Char`
(identifier contents are ASCII, so char counts coincide with byte counts);
the component types `A` and `K` are kept generic, represented by their
parse functions `List Char → Except VError α` and string forms. -/

/-- Validation errors of the identifier layer: the missing-colon and
oversized-algorithm failures plus the component parsers' own errors. -/
inductive VError where
  | missingDelimiter
  | empty
  | identifierTooLong
  | other (msg : String)
  deriving DecidableEq, Repr

/-- The `KeyId` struct: one packed buffer `"<algorithm>:<name>"` plus the
stored split offset (`colon_idx`), with the component types erased
(`PhantomData`). -/
structure KeyId where
  full_id : List Char
  colon_idx : Nat
  deriving DecidableEq, Repr

/-- Split at the first colon: `some (left, right)` with the colon removed,
`none` when the string contains no colon. -/
def splitColon : List Char → Option (List Char × List Char)
  | [] => none
  | c :: rest =>
    if c = ':' then some ([], rest)
    else (splitColon rest).map (fun p => (c :: p.1, p.2))

/-- Modelled from the spec: `qualified_key_id::validate` (the
`ruma-identifiers-validation` crate is outside the given sources) — split on
the first colon, failing with `missingDelimiter` when there is none and with
`empty` when the algorithm part is empty (the offset must be strictly
positive); validate the left part with the algorithm parser and the right
part with the name parser, propagating their errors; fail with
`identifierTooLong` when the algorithm part exceeds the one-byte offset
bound of 255. -/
def kidParse {α κ : Type} (pA : List Char → Except VError α)
    (pK : List Char → Except VError κ) (s : List Char) :
    Except VError KeyId :=
  match splitColon s with
  | none => .error .missingDelimiter
  | some (alg, name) =>
    if alg.length = 0 then .error .empty
    else
      (pA alg).bind (fun _ =>
        (pK name).bind (fun _ =>
          if alg.length ≤ 255 then .ok ⟨s, alg.length⟩
          else .error .identifierTooLong))

/-- `KeyId::from_parts`: concatenate the algorithm's string form, a colon and
the name's string form, and record the algorithm's length as the offset. The
two `expect`s (offset zero, offset above 255) are modelled as `none`. -/
def kidFromParts {α κ : Type} (strA : α → List Char) (strK : κ → List Char)
    (a : α) (k : κ) : Option KeyId :=
  let alg := strA a
  let name := strK k
  if alg.length = 0 ∨ 255 < alg.length then none
  else some ⟨alg ++ ':' :: name, alg.length⟩

/-- `KeyId::algorithm`: reparse the substring before the stored offset. -/
def kidAlgorithm {α : Type} (pA : List Char → Except VError α)
    (kid : KeyId) : Except VError α :=
  pA (kid.full_id.take kid.colon_idx)

/-- `KeyId::key_name`: reparse the substring after the colon at the stored
offset. -/
def kidKeyName {κ : Type} (pK : List Char → Except VError κ)
    (kid : KeyId) : Except VError κ :=
  pK (kid.full_id.drop (kid.colon_idx + 1))

/-- `impl PartialEq for KeyId`: equality of the packed strings
(`self.as_str() == other.as_str()`). -/
def kidBEq (a b : KeyId) : Bool := a.full_id == b.full_id

/-- Lexicographic three-way comparison of character lists, mirroring
`Ord for str` (byte order and scalar-value order agree on UTF-8). -/
def compareList : List Char → List Char → Ordering
  | [], [] => .eq
  | [], _ :: _ => .lt
  | _ :: _, [] => .gt
  | a :: as_, b :: bs =>
    if a < b then .lt
    else if b < a then .gt
    else compareList as_ bs

/-- `impl Ord for KeyId`: comparison of the packed strings. -/
def kidCmp (a b : KeyId) : Ordering := compareList a.full_id b.full_id

/-- `impl Hash for KeyId`: the hash of the packed string
(`self.as_str().hash(state)`), modelled by a polynomial string hash. -/
def kidHash (a : KeyId) : Nat :=
  a.full_id.foldl (fun h c => h * 1099511628211 + c.toNat) 14695981039346656037

/-! Specification-side helper definitions used to state the claims. -/

/-- The five field names the visitor recognizes; every other key goes into
the `extra` map. -/
def recognizedKey (k : String) : Bool :=
  k = "errcode" || k = "soft_logout" || k = "retry_after_ms" ||
    k = "room_version" || k = "admin_contact"

/-- The value paired with the first occurrence of a key in an entry list. -/
def findVal (l : List (String × JValue)) (k : String) : Option JValue :=
  (l.find? (fun p => p.1 = k)).map Prod.snd

/-- Pure sorted-position insertion (the success path of `insertExtra`). -/
def insPure : List (String × JValue) → String → JValue →
    List (String × JValue)
  | [], k, v => [(k, v)]
  | (k', v') :: rest, k, v =>
    if k < k' then (k, v) :: (k', v') :: rest
    else (k', v') :: insPure rest k v

/-- Sorted-map accumulation of the unrecognized entries of a list, starting
from a given map. -/
def collectExtraFrom (acc : List (String × JValue))
    (l : List (String × JValue)) : List (String × JValue) :=
  l.foldl (fun acc p => if recognizedKey p.1 then acc else insPure acc p.1 p.2)
    acc

/-- The sorted map of all unrecognized entries of an input object. -/
def collectExtra (l : List (String × JValue)) : List (String × JValue) :=
  collectExtraFrom [] l

/-- The `ErrorKind` values on which the encode/decode round trip can
succeed: a buffered retry duration must be a whole, `uintMax`-representable
number of milliseconds, and a `custom` value must carry a genuinely
unrecognized discriminant together with a well-formed `BTreeMap` image
(keys strictly sorted, none of them among the five recognized names). -/
def goodKind : ErrorKind → Prop
  | .limitExceeded (some d) => d % 1000000 = 0 ∧ d / 1000000 ≤ uintMax
  | .custom s extra =>
    ErrCode.ofString s = .custom s ∧
    ((extra.map Prod.fst).Pairwise (· < ·)) ∧
    (∀ p ∈ extra, recognizedKey p.1 = false)
  | _ => True

/-! Helper lemmas. -/

theorem except_bind_ok {ε β γ : Type} (e : Except ε β) (f : β → Except ε γ)
    (c : γ) (h : e.bind f = .ok c) : ∃ b, e = .ok b ∧ f b = .ok c := by
  cases e with
  | error err => simp [Except.bind] at h
  | ok b => exact ⟨b, rfl, h⟩

theorem insertExtra_not_mem (k : String) (v : JValue) :
    ∀ acc : List (String × JValue), k ∉ acc.map Prod.fst →
      insertExtra acc k v = .ok (insPure acc k v) := by
  intro acc
  induction acc with
  | nil => intro _; rfl
  | cons p rest ih =>
    intro h
    obtain ⟨k', v'⟩ := p
    simp only [List.map_cons, List.mem_cons, not_or] at h
    rw [insertExtra, insPure, if_neg h.1]
    by_cases hlt : k < k'
    · rw [if_pos hlt, if_pos hlt]
    · rw [if_neg hlt, if_neg hlt, ih h.2]
      rfl

theorem insertExtra_mem (k : String) (v : JValue) :
    ∀ acc : List (String × JValue),
      (acc.map Prod.fst).Pairwise (· < ·) → k ∈ acc.map Prod.fst →
      insertExtra acc k v = .error (.duplicateField k) := by
  intro acc
  induction acc with
  | nil => intro _ hm; simp at hm
  | cons p rest ih =>
    intro hs hm
    obtain ⟨k', v'⟩ := p
    simp only [List.map_cons, List.pairwise_cons] at hs
    simp only [List.map_cons, List.mem_cons] at hm
    rw [insertExtra]
    by_cases heq : k = k'
    · rw [if_pos heq]
    · have hmr : k ∈ rest.map Prod.fst := hm.resolve_left heq
      have hgt : k' < k := hs.1 k hmr
      rw [if_neg heq, if_neg (lt_asymm hgt), ih hs.2 hmr]
      rfl

theorem insPure_append (k : String) (v : JValue) :
    ∀ acc : List (String × JValue), (∀ x ∈ acc.map Prod.fst, x < k) →
      insPure acc k v = acc ++ [(k, v)] := by
  intro acc
  induction acc with
  | nil => intro _; rfl
  | cons p rest ih =>
    intro h
    obtain ⟨k', v'⟩ := p
    have hk' : k' < k := h k' (by simp)
    rw [insPure, if_neg (lt_asymm hk'), ih (fun x hx => h x (by simp [hx]))]
    rfl

theorem mem_insPure_keys (k x : String) (v : JValue) :
    ∀ acc : List (String × JValue),
      (x ∈ (insPure acc k v).map Prod.fst ↔ x = k ∨ x ∈ acc.map Prod.fst) := by
  intro acc
  induction acc with
  | nil => simp [insPure]
  | cons p rest ih =>
    obtain ⟨k', v'⟩ := p
    rw [insPure]
    by_cases hlt : k < k'
    · rw [if_pos hlt]
      simp only [List.map_cons, List.mem_cons]
    · rw [if_neg hlt]
      simp only [List.map_cons, List.mem_cons, ih]
      tauto

theorem insPure_sorted (k : String) (v : JValue) :
    ∀ acc : List (String × JValue),
      (acc.map Prod.fst).Pairwise (· < ·) → k ∉ acc.map Prod.fst →
      ((insPure acc k v).map Prod.fst).Pairwise (· < ·) := by
  intro acc
  induction acc with
  | nil => intro _ _; simp [insPure]
  | cons p rest ih =>
    intro hs hm
    obtain ⟨k', v'⟩ := p
    simp only [List.map_cons, List.pairwise_cons] at hs
    simp only [List.map_cons, List.mem_cons, not_or] at hm
    rw [insPure]
    by_cases hlt : k < k'
    · rw [if_pos hlt]
      simp only [List.map_cons, List.pairwise_cons]
      refine ⟨?_, hs.1, hs.2⟩
      intro x hx
      simp only [List.mem_cons] at hx
      rcases hx with hx | hx
      · exact hx ▸ hlt
      · exact lt_trans hlt (hs.1 x hx)
    · rw [if_neg hlt]
      have hk' : k' < k := lt_of_le_of_ne (not_lt.mp hlt) (Ne.symm hm.1)
      simp only [List.map_cons, List.pairwise_cons]
      refine ⟨?_, ih hs.2 hm.2⟩
      intro x hx
      rw [mem_insPure_keys] at hx
      rcases hx with hx | hx
      · exact hx ▸ hk'
      · exact hs.1 x hx

theorem findVal_cons_self (k : String) (v : JValue)
    (l : List (String × JValue)) : findVal ((k, v) :: l) k = some v := by
  simp [findVal]

theorem findVal_cons_ne (k k' : String) (v : JValue)
    (l : List (String × JValue)) (h : k' ≠ k) :
    findVal ((k', v) :: l) k = findVal l k := by
  simp [findVal, List.find?_cons, h]

theorem findVal_eq_none (k : String) :
    ∀ l : List (String × JValue), k ∉ l.map Prod.fst → findVal l k = none := by
  intro l
  induction l with
  | nil => intro _; rfl
  | cons p rest ih =>
    intro h
    obtain ⟨k', v'⟩ := p
    simp only [List.map_cons, List.mem_cons, not_or] at h
    rw [findVal_cons_ne _ _ _ _ (fun he => h.1 he.symm)]
    exact ih h.2

theorem findVal_mem_nodup (k : String) (v : JValue) :
    ∀ l : List (String × JValue), (l.map Prod.fst).Nodup → (k, v) ∈ l →
      findVal l k = some v := by
  intro l
  induction l with
  | nil => intro _ hm; simp at hm
  | cons p rest ih =>
    intro hnd hm
    obtain ⟨k', v'⟩ := p
    simp only [List.map_cons, List.nodup_cons] at hnd
    rcases List.mem_cons.mp hm with hm | hm
    · injection hm with h1 h2
      subst h1; subst h2
      exact findVal_cons_self k v rest
    · have hne : k' ≠ k := by
        intro he
        exact hnd.1 (List.mem_map.mpr ⟨(k, v), hm, he.symm⟩)
      rw [findVal_cons_ne _ _ _ _ hne]
      exact ih hnd.2 hm

theorem collectExtraFrom_cons_recognized (acc : List (String × JValue))
    (k : String) (v : JValue) (rest : List (String × JValue))
    (h : recognizedKey k = true) :
    collectExtraFrom acc ((k, v) :: rest) = collectExtraFrom acc rest := by
  simp [collectExtraFrom, h]

theorem collectExtraFrom_cons_other (acc : List (String × JValue))
    (k : String) (v : JValue) (rest : List (String × JValue))
    (h : recognizedKey k = false) :
    collectExtraFrom acc ((k, v) :: rest) =
      collectExtraFrom (insPure acc k v) rest := by
  simp [collectExtraFrom, h]

theorem collectExtraFrom_sorted :
    ∀ (l acc : List (String × JValue)),
      (∀ p ∈ l, recognizedKey p.1 = false) →
      (((acc ++ l).map Prod.fst).Pairwise (· < ·)) →
      collectExtraFrom acc l = acc ++ l := by
  intro l
  induction l with
  | nil => intro acc _ _; simp [collectExtraFrom]
  | cons p rest ih =>
    intro acc hall hsort
    obtain ⟨k, v⟩ := p
    have hrec : recognizedKey k = false := hall (k, v) (by simp)
    rw [collectExtraFrom_cons_other _ _ _ _ hrec]
    have hlt : ∀ x ∈ acc.map Prod.fst, x < k := by
      intro x hx
      simp only [List.map_append, List.pairwise_append] at hsort
      exact hsort.2.2 x hx k (by simp)
    rw [insPure_append _ _ _ hlt]
    have hsort2 : (((acc ++ [(k, v)]) ++ rest).map Prod.fst).Pairwise (· < ·) := by
      rw [List.append_assoc, List.singleton_append]
      exact hsort
    rw [ih (acc ++ [(k, v)]) (fun p hp => hall p (by simp [hp])) hsort2]
    simp

theorem setField_ok (owner : ErrCode) (get : DecState → Option JValue)
    (set : DecState → JValue → DecState) (name : String) (st : DecState)
    (v : JValue) (h : get st = none) :
    setField owner get set name st v = .ok (set st v) ∨
      setField owner get set name st v = .ok st := by
  cases hc : st.errcode with
  | none => left; simp [setField, hc, h]
  | some c =>
    by_cases ho : c = owner
    · left; simp [setField, hc, ho, h]
    · right; simp [setField, hc, ho]

/-- Characterization of the `visit_map` key loop on an input whose keys are
pairwise distinct, disjoint from the already-collected extras, and whose
`errcode` value (if any) is a string: the loop succeeds, records the
discriminant from the `errcode` value, leaves absent companion slots
untouched, and accumulates exactly the unrecognized entries. -/
theorem decodeLoop_char :
    ∀ (l : List (String × JValue)) (st : DecState),
      (l.map Prod.fst).Nodup →
      ((st.extra.map Prod.fst).Pairwise (· < ·)) →
      (∀ k ∈ l.map Prod.fst, k ∉ st.extra.map Prod.fst) →
      ("soft_logout" ∈ l.map Prod.fst → st.soft_logout = none) →
      ("retry_after_ms" ∈ l.map Prod.fst → st.retry_after_ms = none) →
      ("room_version" ∈ l.map Prod.fst → st.room_version = none) →
      ("admin_contact" ∈ l.map Prod.fst → st.admin_contact = none) →
      ("errcode" ∈ l.map Prod.fst → st.errcode = none) →
      (∀ v, ("errcode", v) ∈ l → ∃ s, v = JValue.str s) →
      ∃ st', decodeLoop l st = .ok st' ∧
        st'.errcode = (match findVal l "errcode" with
          | some (JValue.str s) => some (ErrCode.ofString s)
          | _ => st.errcode) ∧
        ("room_version" ∉ l.map Prod.fst → st'.room_version = st.room_version) ∧
        ("admin_contact" ∉ l.map Prod.fst →
          st'.admin_contact = st.admin_contact) ∧
        st'.extra = collectExtraFrom st.extra l := by
  intro l
  induction l with
  | nil =>
    intro st _ _ _ _ _ _ _ _ _
    exact ⟨st, rfl, rfl, fun _ => rfl, fun _ => rfl, rfl⟩
  | cons p rest ih =>
    intro st hnd hsort hdisj hsl hra hrv hac hec hecv
    obtain ⟨k, v⟩ := p
    simp only [List.map_cons, List.nodup_cons] at hnd
    have hmem : ∀ n : String, n ∈ rest.map Prod.fst →
        n ∈ ((k, v) :: rest).map Prod.fst := by
      intro n hn; simp [hn]
    have hnotmem : ∀ n : String, n ∉ ((k, v) :: rest).map Prod.fst →
        n ∉ rest.map Prod.fst := by
      intro n hn hn2; exact hn (hmem n hn2)
    -- shared continuation for the four companion-field cases
    have cont : ∀ st₁ : DecState, processKey st k v = .ok st₁ →
        st₁.errcode = st.errcode → st₁.extra = st.extra →
        ("soft_logout" ∈ rest.map Prod.fst → st₁.soft_logout = none) →
        ("retry_after_ms" ∈ rest.map Prod.fst → st₁.retry_after_ms = none) →
        ("room_version" ∈ rest.map Prod.fst → st₁.room_version = none) →
        ("admin_contact" ∈ rest.map Prod.fst → st₁.admin_contact = none) →
        (k ≠ "room_version" → st₁.room_version = st.room_version) →
        (k ≠ "admin_contact" → st₁.admin_contact = st.admin_contact) →
        recognizedKey k = true → k ≠ "errcode" →
        ∃ st', decodeLoop ((k, v) :: rest) st = .ok st' ∧
          st'.errcode = (match findVal ((k, v) :: rest) "errcode" with
            | some (JValue.str s) => some (ErrCode.ofString s)
            | _ => st.errcode) ∧
          ("room_version" ∉ ((k, v) :: rest).map Prod.fst →
            st'.room_version = st.room_version) ∧
          ("admin_contact" ∉ ((k, v) :: rest).map Prod.fst →
            st'.admin_contact = st.admin_contact) ∧
          st'.extra = collectExtraFrom st.extra ((k, v) :: rest) := by
      intro st₁ hstep hee hxe hs1 hs2 hs3 hs4 hrve hace hreck hkerr
      obtain ⟨st', hloop, he', hrv', hac', hex'⟩ :=
        ih st₁ hnd.2 (hxe ▸ hsort)
          (fun n hn => hxe ▸ hdisj n (hmem n hn))
          hs1 hs2 hs3 hs4
          (fun h => hee.trans (hec (hmem _ h)))
          (fun w hw => hecv w (List.mem_cons_of_mem _ hw))
      refine ⟨st', ?_, ?_, ?_, ?_, ?_⟩
      · rw [decodeLoop, hstep]
        exact hloop
      · rw [findVal_cons_ne _ _ _ _ hkerr, he', hee]
      · intro h
        rw [hrv' (hnotmem _ h), hrve (fun heq => h (by subst heq; simp))]
      · intro h
        rw [hac' (hnotmem _ h), hace (fun heq => h (by subst heq; simp))]
      · rw [hex', hxe, collectExtraFrom_cons_recognized _ _ _ _ hreck]
    by_cases hk1 : k = "errcode"
    · subst hk1
      have he0 : st.errcode = none := hec (by simp)
      obtain ⟨s, hs⟩ := hecv v (by simp)
      subst hs
      have hstep : processKey st "errcode" (JValue.str s) =
          .ok { st with errcode := some (ErrCode.ofString s) } := by
        simp [processKey, parseErrCode, he0, Except.map]
      obtain ⟨st', hloop, he', hrv', hac', hex'⟩ :=
        ih { st with errcode := some (ErrCode.ofString s) } hnd.2 hsort
          (fun n hn => hdisj n (hmem n hn))
          (fun h => hsl (hmem _ h)) (fun h => hra (hmem _ h))
          (fun h => hrv (hmem _ h)) (fun h => hac (hmem _ h))
          (fun h => absurd h hnd.1)
          (fun w hw => hecv w (List.mem_cons_of_mem _ hw))
      rw [findVal_eq_none _ _ hnd.1] at he'
      refine ⟨st', ?_, ?_, ?_, ?_, ?_⟩
      · rw [decodeLoop, hstep]
        exact hloop
      · rw [findVal_cons_self]
        exact he'
      · intro h
        exact hrv' (hnotmem _ h)
      · intro h
        exact hac' (hnotmem _ h)
      · rw [hex', collectExtraFrom_cons_recognized]
        rfl
    · by_cases hk2 : k = "soft_logout"
      · subst hk2
        have hv0 : st.soft_logout = none := hsl (by simp)
        have hpk : processKey st "soft_logout" v =
            setField .unknownToken (fun st => st.soft_logout)
              (fun st v => { st with soft_logout := some v })
              "soft_logout" st v := by
          simp [processKey]
        rcases setField_ok _ _ _ _ st v hv0 with h1 | h1
        · exact cont { st with soft_logout := some v } (by rw [hpk, h1]) rfl rfl
            (fun h => absurd h hnd.1) (fun h => hra (hmem _ h))
            (fun h => hrv (hmem _ h)) (fun h => hac (hmem _ h)) (fun _ => rfl) (fun _ => rfl)
            (by decide) (by decide)
        · exact cont st (by rw [hpk, h1]) rfl rfl
            (fun h => absurd h hnd.1) (fun h => hra (hmem _ h))
            (fun h => hrv (hmem _ h)) (fun h => hac (hmem _ h)) (fun _ => rfl) (fun _ => rfl)
            (by decide) (by decide)
      · by_cases hk3 : k = "retry_after_ms"
        · subst hk3
          have hv0 : st.retry_after_ms = none := hra (by simp)
          have hpk : processKey st "retry_after_ms" v =
              setField .limitExceeded (fun st => st.retry_after_ms)
                (fun st v => { st with retry_after_ms := some v })
                "retry_after_ms" st v := by
            simp [processKey]
          rcases setField_ok _ _ _ _ st v hv0 with h1 | h1
          · exact cont { st with retry_after_ms := some v } (by rw [hpk, h1])
              rfl rfl (fun h => hsl (hmem _ h)) (fun h => absurd h hnd.1)
              (fun h => hrv (hmem _ h)) (fun h => hac (hmem _ h)) (fun _ => rfl) (fun _ => rfl)
              (by decide) (by decide)
          · exact cont st (by rw [hpk, h1]) rfl rfl
              (fun h => hsl (hmem _ h)) (fun h => absurd h hnd.1)
              (fun h => hrv (hmem _ h)) (fun h => hac (hmem _ h)) (fun _ => rfl) (fun _ => rfl)
              (by decide) (by decide)
        · by_cases hk4 : k = "room_version"
          · subst hk4
            have hv0 : st.room_version = none := hrv (by simp)
            have hpk : processKey st "room_version" v =
                setField .incompatibleRoomVersion (fun st => st.room_version)
                  (fun st v => { st with room_version := some v })
                  "room_version" st v := by
              simp [processKey]
            rcases setField_ok _ _ _ _ st v hv0 with h1 | h1
            · exact cont { st with room_version := some v } (by rw [hpk, h1])
                rfl rfl (fun h => hsl (hmem _ h)) (fun h => hra (hmem _ h))
                (fun h => absurd h hnd.1) (fun h => hac (hmem _ h)) (fun hne => absurd rfl hne) (fun _ => rfl)
                (by decide) (by decide)
            · exact cont st (by rw [hpk, h1]) rfl rfl
                (fun h => hsl (hmem _ h)) (fun h => hra (hmem _ h))
                (fun h => absurd h hnd.1) (fun h => hac (hmem _ h)) (fun _ => rfl) (fun _ => rfl)
                (by decide) (by decide)
          · by_cases hk5 : k = "admin_contact"
            · subst hk5
              have hv0 : st.admin_contact = none := hac (by simp)
              have hpk : processKey st "admin_contact" v =
                  setField .resourceLimitExceeded (fun st => st.admin_contact)
                    (fun st v => { st with admin_contact := some v })
                    "admin_contact" st v := by
                simp [processKey]
              rcases setField_ok _ _ _ _ st v hv0 with h1 | h1
              · exact cont { st with admin_contact := some v } (by rw [hpk, h1])
                  rfl rfl (fun h => hsl (hmem _ h)) (fun h => hra (hmem _ h))
                  (fun h => hrv (hmem _ h)) (fun h => absurd h hnd.1) (fun _ => rfl) (fun hne => absurd rfl hne)
                  (by decide) (by decide)
              · exact cont st (by rw [hpk, h1]) rfl rfl
                  (fun h => hsl (hmem _ h)) (fun h => hra (hmem _ h))
                  (fun h => hrv (hmem _ h)) (fun h => absurd h hnd.1) (fun _ => rfl) (fun _ => rfl)
                  (by decide) (by decide)
            · -- unrecognized key: goes into the extra map
              have hrec : recognizedKey k = false := by
                simp [recognizedKey, hk1, hk2, hk3, hk4, hk5]
              have hkext : k ∉ st.extra.map Prod.fst := hdisj k (by simp)
              have hstep : processKey st k v =
                  .ok { st with extra := insPure st.extra k v } := by
                rw [processKey, if_neg hk1, if_neg hk2, if_neg hk3, if_neg hk4,
                  if_neg hk5, insertExtra_not_mem _ _ _ hkext]
                rfl
              obtain ⟨st', hloop, he', hrv', hac', hex'⟩ :=
                ih { st with extra := insPure st.extra k v } hnd.2
                  (insPure_sorted _ _ _ hsort hkext)
                  (by
                    intro n hn
                    simp only [mem_insPure_keys]
                    rintro (rfl | hn2)
                    · exact hnd.1 hn
                    · exact hdisj n (hmem n hn) hn2)
                  (fun h => hsl (hmem _ h)) (fun h => hra (hmem _ h))
                  (fun h => hrv (hmem _ h)) (fun h => hac (hmem _ h))
                  (fun h => hec (hmem _ h))
                  (fun w hw => hecv w (List.mem_cons_of_mem _ hw))
              refine ⟨st', ?_, ?_, ?_, ?_, ?_⟩
              · rw [decodeLoop, hstep]
                exact hloop
              · rw [findVal_cons_ne _ _ _ _ hk1]
                exact he'
              · intro h
                exact hrv' (hnotmem _ h)
              · intro h
                exact hac' (hnotmem _ h)
              · rw [hex', collectExtraFrom_cons_other _ _ _ _ hrec]

theorem splitColon_eq_none (s : List Char) (h : ':' ∉ s) :
    splitColon s = none := by
  induction s with
  | nil => rfl
  | cons c rest ih =>
    simp only [List.mem_cons, not_or] at h
    rw [splitColon, if_neg (fun hc => h.1 hc.symm), ih h.2]
    rfl

theorem splitColon_append (a b : List Char) (ha : ':' ∉ a) :
    splitColon (a ++ ':' :: b) = some (a, b) := by
  induction a with
  | nil => simp [splitColon]
  | cons c rest ih =>
    simp only [List.mem_cons, not_or] at ha
    rw [List.cons_append, splitColon, if_neg (fun hc => ha.1 hc.symm),
      ih ha.2]
    rfl

theorem splitColon_some :
    ∀ (s a b : List Char), splitColon s = some (a, b) → s = a ++ ':' :: b := by
  intro s
  induction s with
  | nil => intro a b h; exact Option.noConfusion h
  | cons c rest ih =>
    intro a b h
    rw [splitColon] at h
    by_cases hc : c = ':'
    · rw [if_pos hc] at h
      obtain ⟨h1, h2⟩ := Prod.mk.injEq .. ▸ Option.some.injEq .. ▸ h
      subst hc
      simp_all
    · rw [if_neg hc] at h
      cases hsp : splitColon rest with
      | none => rw [hsp] at h; simp at h
      | some p =>
        obtain ⟨p1, p2⟩ := p
        rw [hsp] at h
        simp only [Option.map, Option.some.injEq, Prod.mk.injEq] at h
        obtain ⟨h1, h2⟩ := h
        subst h2
        rw [← h1, List.cons_append, ih p1 p2 hsp]

theorem drop_append_cons (a b : List Char) (c : Char) :
    (a ++ c :: b).drop (a.length + 1) = b := by
  induction a with
  | nil => rfl
  | cons x rest ih =>
    rw [List.cons_append, List.length_cons]
    exact ih

theorem compareList_eq_iff : ∀ x y : List Char, compareList x y = .eq ↔ x = y := by
  intro x
  induction x with
  | nil => intro y; cases y <;> simp [compareList]
  | cons a as_ ih =>
    intro y
    cases y with
    | nil => simp [compareList]
    | cons b bs =>
      rw [compareList]
      by_cases h1 : a < b
      · rw [if_pos h1]
        constructor
        · intro h; simp at h
        · intro h
          injection h with h2 _
          exact absurd (h2 ▸ h1) (lt_irrefl b)
      · rw [if_neg h1]
        by_cases h2 : b < a
        · rw [if_pos h2]
          constructor
          · intro h; simp at h
          · intro h
            injection h with h3 _
            exact absurd (h3 ▸ h2) (lt_irrefl b)
        · have hab : a = b := le_antisymm (not_lt.mp h2) (not_lt.mp h1)
          rw [if_neg h2, ih bs]
          subst hab
          simp

theorem compareList_lt_iff :
    ∀ x y : List Char, compareList x y = .lt ↔ List.Lex (· < ·) x y := by
  intro x
  induction x with
  | nil =>
    intro y
    cases y with
    | nil =>
      simp only [compareList]
      constructor
      · intro h; simp at h
      · intro h; cases h
    | cons b bs =>
      simp only [compareList]
      exact ⟨fun _ => List.Lex.nil, fun _ => trivial⟩
  | cons a as_ ih =>
    intro y
    cases y with
    | nil =>
      simp only [compareList]
      constructor
      · intro h; simp at h
      · intro h; cases h
    | cons b bs =>
      rw [compareList]
      by_cases h1 : a < b
      · rw [if_pos h1]
        exact ⟨fun _ => List.Lex.rel h1, fun _ => rfl⟩
      · rw [if_neg h1]
        by_cases h2 : b < a
        · rw [if_pos h2]
          constructor
          · intro h; simp at h
          · intro h
            cases h with
            | cons h => exact absurd h2 (lt_irrefl a)
            | rel h => exact absurd h h1
        · have hab : a = b := le_antisymm (not_lt.mp h2) (not_lt.mp h1)
          subst hab
          rw [if_neg h2, ih bs]
          constructor
          · intro h; exact List.Lex.cons h
          · intro h
            cases h with
            | cons h => exact h
            | rel h => exact absurd h h1

theorem setField_retain (owner : ErrCode) (get : DecState → Option JValue)
    (set : DecState → JValue → DecState) (name : String) (st : DecState)
    (v : JValue) (h : get st = none) :
    setField owner get set name st v =
      .ok (if st.errcode = none ∨ st.errcode = some owner
        then set st v else st) := by
  cases hc : st.errcode with
  | none => simp [setField, hc, h]
  | some c =>
    by_cases ho : c = owner
    · simp [setField, hc, h, ho]
    · simp [setField, hc, ho, Option.some.injEq]

theorem setField_discard (owner : ErrCode) (get : DecState → Option JValue)
    (set : DecState → JValue → DecState) (name : String) (st : DecState)
    (v : JValue) (c : ErrCode) (hc : st.errcode = some c) (ho : c ≠ owner) :
    setField owner get set name st v = .ok st := by
  simp [setField, hc, ho]

theorem processKey_soft_logout (st : DecState) (v : JValue) :
    processKey st "soft_logout" v =
      setField .unknownToken (fun st => st.soft_logout)
        (fun st v => { st with soft_logout := some v }) "soft_logout" st v := by
  simp [processKey]

theorem processKey_retry_after_ms (st : DecState) (v : JValue) :
    processKey st "retry_after_ms" v =
      setField .limitExceeded (fun st => st.retry_after_ms)
        (fun st v => { st with retry_after_ms := some v })
        "retry_after_ms" st v := by
  simp [processKey]

theorem processKey_room_version (st : DecState) (v : JValue) :
    processKey st "room_version" v =
      setField .incompatibleRoomVersion (fun st => st.room_version)
        (fun st v => { st with room_version := some v })
        "room_version" st v := by
  simp [processKey]

theorem processKey_admin_contact (st : DecState) (v : JValue) :
    processKey st "admin_contact" v =
      setField .resourceLimitExceeded (fun st => st.admin_contact)
        (fun st v => { st with admin_contact := some v })
        "admin_contact" st v := by
  simp [processKey]

/-! The claims. -/

/-- C2: when one of the four recognized companion keys is encountered with
its accumulator slot still empty, its raw value is stored exactly when the
discriminant slot is still empty or already records the variant owning that
field (`soft_logout` → unknown-token, `retry_after_ms` → rate-limit,
`room_version` → incompatible-room-version, `admin_contact` →
resource-limit); when a different discriminant is already recorded, the
value is consumed and discarded and the step never fails. -/
theorem claim_c2_companion_retention (st : DecState) (v : JValue) :
    ((st.soft_logout = none → processKey st "soft_logout" v =
        .ok (if st.errcode = none ∨ st.errcode = some .unknownToken
          then { st with soft_logout := some v } else st)) ∧
      (∀ c, st.errcode = some c → c ≠ .unknownToken →
        processKey st "soft_logout" v = .ok st)) ∧
    ((st.retry_after_ms = none → processKey st "retry_after_ms" v =
        .ok (if st.errcode = none ∨ st.errcode = some .limitExceeded
          then { st with retry_after_ms := some v } else st)) ∧
      (∀ c, st.errcode = some c → c ≠ .limitExceeded →
        processKey st "retry_after_ms" v = .ok st)) ∧
    ((st.room_version = none → processKey st "room_version" v =
        .ok (if st.errcode = none ∨ st.errcode = some .incompatibleRoomVersion
          then { st with room_version := some v } else st)) ∧
      (∀ c, st.errcode = some c → c ≠ .incompatibleRoomVersion →
        processKey st "room_version" v = .ok st)) ∧
    ((st.admin_contact = none → processKey st "admin_contact" v =
        .ok (if st.errcode = none ∨ st.errcode = some .resourceLimitExceeded
          then { st with admin_contact := some v } else st)) ∧
      (∀ c, st.errcode = some c → c ≠ .resourceLimitExceeded →
        processKey st "admin_contact" v = .ok st)) := by
  refine ⟨⟨?_, ?_⟩, ⟨?_, ?_⟩, ⟨?_, ?_⟩, ⟨?_, ?_⟩⟩
  · intro h
    rw [processKey_soft_logout, setField_retain _ _ _ _ _ _ h]
  · intro c hc ho
    rw [processKey_soft_logout, setField_discard _ _ _ _ _ _ c hc ho]
  · intro h
    rw [processKey_retry_after_ms, setField_retain _ _ _ _ _ _ h]
  · intro c hc ho
    rw [processKey_retry_after_ms, setField_discard _ _ _ _ _ _ c hc ho]
  · intro h
    rw [processKey_room_version, setField_retain _ _ _ _ _ _ h]
  · intro c hc ho
    rw [processKey_room_version, setField_discard _ _ _ _ _ _ c hc ho]
  · intro h
    rw [processKey_admin_contact, setField_retain _ _ _ _ _ _ h]
  · intro c hc ho
    rw [processKey_admin_contact, setField_discard _ _ _ _ _ _ c hc ho]

/-- Witness for C2 at a concrete state: with an empty state the incoming
`soft_logout` value is retained, and with a recorded forbidden discriminant
it is discarded without error. -/
theorem claim_c2_witness :
    processKey DecState.init "soft_logout" (.bool true) =
      .ok { DecState.init with soft_logout := some (.bool true) } ∧
    processKey { DecState.init with errcode := some .forbidden }
      "soft_logout" (.bool true) =
      .ok { DecState.init with errcode := some .forbidden } := by
  constructor
  · have h := (claim_c2_companion_retention DecState.init (.bool true)).1.1 rfl
    simpa using h
  · exact (claim_c2_companion_retention
      { DecState.init with errcode := some .forbidden } (.bool true)).1.2
      .forbidden rfl (by decide)

/-- C3 counterexample: an object repeating the companion key `soft_logout`
twice decodes successfully (to the forbidden variant) instead of failing
with a duplicate-field error, because both occurrences are processed in the
ignore branch of `set_field!`, which performs no duplicate check. -/
theorem claim_c3_counterexample :
    decode [("errcode", .str "M_FORBIDDEN"), ("soft_logout", .bool true),
            ("soft_logout", .bool false)] = .ok .forbidden := rfl

/-- C3 (amended): a repeated `errcode` always fails with a duplicate-field
error; a repeated unrecognized key always fails with a duplicate-field
error; a repeated recognized companion key fails with a duplicate-field
error exactly when its later occurrence is processed with the discriminant
slot still empty or holding the owning variant — an occurrence processed
after a different discriminant is known is discarded without any duplicate
check. -/
theorem claim_c3_duplicate_fields (st : DecState) (k : String) (v : JValue) :
    (st.errcode.isSome = true →
      processKey st "errcode" v = .error (.duplicateField "errcode")) ∧
    (recognizedKey k = false → (st.extra.map Prod.fst).Pairwise (· < ·) →
      k ∈ st.extra.map Prod.fst →
      processKey st k v = .error (.duplicateField k)) ∧
    (st.soft_logout.isSome = true →
      (st.errcode = none ∨ st.errcode = some .unknownToken) →
      processKey st "soft_logout" v = .error (.duplicateField "soft_logout")) ∧
    (∀ c, st.errcode = some c → c ≠ .unknownToken →
      processKey st "soft_logout" v = .ok st) ∧
    (st.retry_after_ms.isSome = true →
      (st.errcode = none ∨ st.errcode = some .limitExceeded) →
      processKey st "retry_after_ms" v =
        .error (.duplicateField "retry_after_ms")) ∧
    (st.room_version.isSome = true →
      (st.errcode = none ∨ st.errcode = some .incompatibleRoomVersion) →
      processKey st "room_version" v =
        .error (.duplicateField "room_version")) ∧
    (st.admin_contact.isSome = true →
      (st.errcode = none ∨ st.errcode = some .resourceLimitExceeded) →
      processKey st "admin_contact" v =
        .error (.duplicateField "admin_contact")) := by
  refine ⟨?_, ?_, ?_, ?_, ?_, ?_, ?_⟩
  · intro h
    simp [processKey, h]
  · intro hrec hsort hmem
    have hk1 : k ≠ "errcode" := by rintro rfl; simp [recognizedKey] at hrec
    have hk2 : k ≠ "soft_logout" := by rintro rfl; simp [recognizedKey] at hrec
    have hk3 : k ≠ "retry_after_ms" := by
      rintro rfl; simp [recognizedKey] at hrec
    have hk4 : k ≠ "room_version" := by rintro rfl; simp [recognizedKey] at hrec
    have hk5 : k ≠ "admin_contact" := by
      rintro rfl; simp [recognizedKey] at hrec
    rw [processKey, if_neg hk1, if_neg hk2, if_neg hk3, if_neg hk4,
      if_neg hk5, insertExtra_mem _ _ _ hsort hmem]
    rfl
  · intro h hd
    rw [processKey_soft_logout]
    rcases hd with hd | hd <;> simp [setField, hd, h]
  · intro c hc ho
    rw [processKey_soft_logout, setField_discard _ _ _ _ _ _ c hc ho]
  · intro h hd
    rw [processKey_retry_after_ms]
    rcases hd with hd | hd <;> simp [setField, hd, h]
  · intro h hd
    rw [processKey_room_version]
    rcases hd with hd | hd <;> simp [setField, hd, h]
  · intro h hd
    rw [processKey_admin_contact]
    rcases hd with hd | hd <;> simp [setField, hd, h]

/-- Witness for C3: a concrete duplicate `errcode` and a concrete duplicate
unrecognized key both fail with the duplicate-field error. -/
theorem claim_c3_witness :
    processKey { DecState.init with errcode := some .forbidden }
      "errcode" (.str "M_UNKNOWN") = .error (.duplicateField "errcode") ∧
    processKey { DecState.init with extra := [("error", .str "x")] }
      "error" (.str "y") = .error (.duplicateField "error") := by
  constructor
  · exact (claim_c3_duplicate_fields
      { DecState.init with errcode := some .forbidden } "error"
      (.str "M_UNKNOWN")).1 rfl
  · exact (claim_c3_duplicate_fields
      { DecState.init with extra := [("error", .str "x")] } "error"
      (.str "y")).2.1 (by decide) (by simp) (by simp)

/-- C10: a companion value of the wrong type is tolerated whenever the final
discriminant does not own that field — whether it arrives after the
discriminant (ignore branch) or before it (speculatively buffered, then
dropped at construction) — because companion values are buffered untyped and
only converted when the resolved variant carries them. -/
theorem claim_c10_wrong_type_tolerated (v : JValue) :
    decode [("errcode", .str "M_FORBIDDEN"), ("soft_logout", v)] =
      .ok .forbidden ∧
    decode [("soft_logout", v), ("errcode", .str "M_FORBIDDEN")] =
      .ok .forbidden ∧
    decode [("errcode", .str "M_FORBIDDEN"), ("retry_after_ms", v)] =
      .ok .forbidden ∧
    decode [("errcode", .str "M_FORBIDDEN"), ("room_version", v)] =
      .ok .forbidden ∧
    decode [("errcode", .str "M_FORBIDDEN"), ("admin_contact", v)] =
      .ok .forbidden ∧
    decode [("retry_after_ms", v), ("errcode", .str "M_UNKNOWN_TOKEN")] =
      .ok (.unknownToken false) :=
  ⟨rfl, rfl, rfl, rfl, rfl, rfl⟩

/-- C6: for the rate-limit variant, decode maps an absent `retry_after_ms`
to no duration; a present integer value in the representable range
`[0, uintMax]` becomes a duration of that many milliseconds; a value outside
the range fails with a parse error; encode converts the duration back to a
millisecond count when representable and fails with an overflow error
otherwise. -/
theorem claim_c6_retry_after_ms :
    (decode [("errcode", .str "M_LIMIT_EXCEEDED")] =
      .ok (.limitExceeded none)) ∧
    (∀ n : Int, 0 ≤ n → n ≤ (uintMax : Int) →
      decode [("errcode", .str "M_LIMIT_EXCEEDED"),
              ("retry_after_ms", .int n)] =
        .ok (.limitExceeded (some (Duration.fromMillis n.toNat)))) ∧
    (∀ n : Int, n < 0 ∨ (uintMax : Int) < n →
      decode [("errcode", .str "M_LIMIT_EXCEEDED"),
              ("retry_after_ms", .int n)] =
        .error (.invalidValue "retry_after_ms")) ∧
    (∀ d : Duration, d.asMillis ≤ uintMax →
      encode (.limitExceeded (some d)) =
        .ok [("errcode", .str "M_LIMIT_EXCEEDED"),
             ("retry_after_ms", .int (d.asMillis : Int))]) ∧
    (∀ d : Duration, uintMax < d.asMillis →
      encode (.limitExceeded (some d)) = .error .overflow) := by
  refine ⟨rfl, ?_, ?_, ?_, ?_⟩
  · intro n h0 h1
    have h2 : decode [("errcode", .str "M_LIMIT_EXCEEDED"),
        ("retry_after_ms", .int n)] =
        (parseUInt (.int n)).map
          (fun m => ErrorKind.limitExceeded (some (Duration.fromMillis m))) :=
      rfl
    rw [h2]
    simp only [parseUInt, if_pos (And.intro h0 h1)]
    rfl
  · intro n h
    have h2 : decode [("errcode", .str "M_LIMIT_EXCEEDED"),
        ("retry_after_ms", .int n)] =
        (parseUInt (.int n)).map
          (fun m => ErrorKind.limitExceeded (some (Duration.fromMillis m))) :=
      rfl
    rw [h2]
    have hneg : ¬(0 ≤ n ∧ n ≤ (uintMax : Int)) := by
      rcases h with h | h <;> omega
    simp only [parseUInt, if_neg hneg]
    rfl
  · intro d h
    simp [encode, h, ErrorKind.wireString]
  · intro d h
    simp [encode, not_le.mpr h]

/-- Witness for C6: at the concrete values 2000 ms (in range) and
`uintMax + 1` ms (out of range, also overflow on encode) the four
hypothetical parts evaluate as stated. -/
theorem claim_c6_witness :
    decode [("errcode", .str "M_LIMIT_EXCEEDED"),
            ("retry_after_ms", .int 2000)] =
      .ok (.limitExceeded (some (Duration.fromMillis (Int.toNat 2000)))) ∧
    decode [("errcode", .str "M_LIMIT_EXCEEDED"),
            ("retry_after_ms", .int 9007199254740992)] =
      .error (.invalidValue "retry_after_ms") ∧
    encode (.limitExceeded (some (Duration.fromMillis 2000))) =
      .ok [("errcode", .str "M_LIMIT_EXCEEDED"),
           ("retry_after_ms",
             .int ((Duration.fromMillis 2000).asMillis : Int))] ∧
    encode (.limitExceeded (some (Duration.fromMillis 9007199254740992))) =
      .error .overflow := by
  refine ⟨?_, ?_, ?_, ?_⟩
  · exact (claim_c6_retry_after_ms).2.1 2000 (by norm_num) (by norm_num [uintMax])
  · exact (claim_c6_retry_after_ms).2.2.1 9007199254740992
      (Or.inr (by norm_num [uintMax]))
  · exact (claim_c6_retry_after_ms).2.2.2.1 (Duration.fromMillis 2000)
      (by norm_num [Duration.fromMillis, Duration.asMillis, uintMax])
  · exact (claim_c6_retry_after_ms).2.2.2.2
      (Duration.fromMillis 9007199254740992)
      (by norm_num [Duration.fromMillis, Duration.asMillis, uintMax])

/-- C4: on an input object (unique keys), decode fails with a missing-field
error for `errcode` when no discriminant key is present; with the
discriminant resolved to the incompatible-room-version variant it fails with
a missing-field error for `room_version` when that companion is absent; and
with the discriminant resolved to the resource-limit variant it fails with a
missing-field error for `admin_contact` when that companion is absent. -/
theorem claim_c4_missing_required_fields :
    (∀ l : List (String × JValue), (l.map Prod.fst).Nodup →
      "errcode" ∉ l.map Prod.fst →
      decode l = .error (.missingField "errcode")) ∧
    (∀ l : List (String × JValue), (l.map Prod.fst).Nodup →
      ("errcode", JValue.str "M_INCOMPATIBLE_ROOM_VERSION") ∈ l →
      "room_version" ∉ l.map Prod.fst →
      decode l = .error (.missingField "room_version")) ∧
    (∀ l : List (String × JValue), (l.map Prod.fst).Nodup →
      ("errcode", JValue.str "M_RESOURCE_LIMIT_EXCEEDED") ∈ l →
      "admin_contact" ∉ l.map Prod.fst →
      decode l = .error (.missingField "admin_contact")) := by
  refine ⟨?_, ?_, ?_⟩
  · intro l hnd hne
    obtain ⟨st', hloop, he', hrv', hac', hex'⟩ :=
      decodeLoop_char l DecState.init hnd (by simp [DecState.init])
        (fun n _ => by simp [DecState.init]) (fun _ => rfl) (fun _ => rfl)
        (fun _ => rfl) (fun _ => rfl) (fun _ => rfl)
        (fun w hw => absurd (List.mem_map.mpr ⟨_, hw, rfl⟩) hne)
    rw [findVal_eq_none _ _ hne] at he'
    have he2 : st'.errcode = none := he'
    unfold decode
    rw [hloop]
    simp [Except.bind, finishDecode, he2]
  · intro l hnd hmem hne
    have hfv : findVal l "errcode" =
        some (.str "M_INCOMPATIBLE_ROOM_VERSION") :=
      findVal_mem_nodup _ _ _ hnd hmem
    obtain ⟨st', hloop, he', hrv', hac', hex'⟩ :=
      decodeLoop_char l DecState.init hnd (by simp [DecState.init])
        (fun n _ => by simp [DecState.init]) (fun _ => rfl) (fun _ => rfl)
        (fun _ => rfl) (fun _ => rfl) (fun _ => rfl)
        (fun w hw => ⟨"M_INCOMPATIBLE_ROOM_VERSION", by
          have h2 := (findVal_mem_nodup _ _ _ hnd hw).symm.trans hfv
          injection h2⟩)
    rw [hfv] at he'
    have he2 : st'.errcode =
        some (ErrCode.ofString "M_INCOMPATIBLE_ROOM_VERSION") := he'
    rw [show ErrCode.ofString "M_INCOMPATIBLE_ROOM_VERSION" =
      .incompatibleRoomVersion by decide] at he2
    have hrv2 : st'.room_version = none := hrv' hne
    unfold decode
    rw [hloop]
    simp [Except.bind, finishDecode, he2, hrv2]
  · intro l hnd hmem hne
    have hfv : findVal l "errcode" =
        some (.str "M_RESOURCE_LIMIT_EXCEEDED") :=
      findVal_mem_nodup _ _ _ hnd hmem
    obtain ⟨st', hloop, he', hrv', hac', hex'⟩ :=
      decodeLoop_char l DecState.init hnd (by simp [DecState.init])
        (fun n _ => by simp [DecState.init]) (fun _ => rfl) (fun _ => rfl)
        (fun _ => rfl) (fun _ => rfl) (fun _ => rfl)
        (fun w hw => ⟨"M_RESOURCE_LIMIT_EXCEEDED", by
          have h2 := (findVal_mem_nodup _ _ _ hnd hw).symm.trans hfv
          injection h2⟩)
    rw [hfv] at he'
    have he2 : st'.errcode =
        some (ErrCode.ofString "M_RESOURCE_LIMIT_EXCEEDED") := he'
    rw [show ErrCode.ofString "M_RESOURCE_LIMIT_EXCEEDED" =
      .resourceLimitExceeded by decide] at he2
    have hac2 : st'.admin_contact = none := hac' hne
    unfold decode
    rw [hloop]
    simp [Except.bind, finishDecode, he2, hac2]

/-- Witness for C4 at concrete objects: no `errcode` key at all, an
incompatible-room-version object without `room_version`, and a
resource-limit object without `admin_contact`. -/
theorem claim_c4_witness :
    decode [("error", .str "x")] = .error (.missingField "errcode") ∧
    decode [("errcode", .str "M_INCOMPATIBLE_ROOM_VERSION")] =
      .error (.missingField "room_version") ∧
    decode [("errcode", .str "M_RESOURCE_LIMIT_EXCEEDED"),
            ("error", .str "x")] =
      .error (.missingField "admin_contact") := by
  refine ⟨?_, ?_, ?_⟩
  · exact claim_c4_missing_required_fields.1 [("error", .str "x")]
      (by simp) (by simp)
  · exact claim_c4_missing_required_fields.2.1
      [("errcode", .str "M_INCOMPATIBLE_ROOM_VERSION")] (by simp) (by simp)
      (by simp)
  · exact claim_c4_missing_required_fields.2.2
      [("errcode", .str "M_RESOURCE_LIMIT_EXCEEDED"), ("error", .str "x")]
      (by simp) (by simp) (by simp)

/-- C5: an object (unique keys) whose `errcode` value is a string outside
the fixed discriminant table decodes successfully to the `custom` variant
carrying the raw discriminant string and the map of all unrecognized keys of
the object — an unrecognized discriminant is never rejected. -/
theorem claim_c5_unknown_errcode (l : List (String × JValue)) (s : String)
    (hnd : (l.map Prod.fst).Nodup)
    (hmem : ("errcode", JValue.str s) ∈ l)
    (hcustom : ErrCode.ofString s = .custom s) :
    decode l = .ok (.custom s (collectExtra l)) := by
  have hfv : findVal l "errcode" = some (.str s) :=
    findVal_mem_nodup _ _ _ hnd hmem
  obtain ⟨st', hloop, he', hrv', hac', hex'⟩ :=
    decodeLoop_char l DecState.init hnd (by simp [DecState.init])
      (fun n _ => by simp [DecState.init]) (fun _ => rfl) (fun _ => rfl)
      (fun _ => rfl) (fun _ => rfl) (fun _ => rfl)
      (fun w hw => ⟨s, by
        have h2 := (findVal_mem_nodup _ _ _ hnd hw).symm.trans hfv
        injection h2⟩)
  rw [hfv] at he'
  have he2 : st'.errcode = some (ErrCode.ofString s) := he'
  rw [hcustom] at he2
  unfold decode
  rw [hloop]
  simp [Except.bind, finishDecode, he2, hex', collectExtra, DecState.init]

/-- Witness for C5: a concrete object with the unrecognized discriminant
string and one extra key decodes to `custom` with that extra entry. -/
theorem claim_c5_witness :
    decode [("errcode", .str "M_SOMETHING_NEW"), ("error", .str "x")] =
      .ok (.custom "M_SOMETHING_NEW"
        (collectExtra [("errcode", .str "M_SOMETHING_NEW"),
                       ("error", .str "x")])) := by
  exact claim_c5_unknown_errcode
    [("errcode", .str "M_SOMETHING_NEW"), ("error", .str "x")]
    "M_SOMETHING_NEW" (by simp) (by simp) (by decide)

/-- C1 counterexample: the constructible value `custom "M_FORBIDDEN" ∅`
encodes to the canonical forbidden object, which decodes to the `forbidden`
unit variant — not back to the original `custom` value. -/
theorem claim_c1_counterexample :
    encode (.custom "M_FORBIDDEN" []) =
      .ok [("errcode", JValue.str "M_FORBIDDEN")] ∧
    decode [("errcode", JValue.str "M_FORBIDDEN")] = .ok .forbidden ∧
    ErrorKind.forbidden ≠ .custom "M_FORBIDDEN" [] :=
  ⟨rfl, rfl, by decide⟩

/-- C1 (amended): decoding the object produced by encoding `v` yields `v`
again for every `ErrorKind` value `v` that encode can represent faithfully:
a rate-limit duration (if any) must be a whole number of at most `uintMax`
milliseconds, and a `custom` payload (if any) must carry a discriminant
string outside the fixed table together with a key-sorted extra map free of
the five recognized field names. This includes `unknownToken` with
`soft_logout = false` (omitted on the wire, restored by the decode default)
and `limitExceeded` with the duration present or absent. -/
theorem claim_c1_round_trip (v : ErrorKind) (h : goodKind v) :
    ∃ l, encode v = .ok l ∧ decode l = .ok v := by
  cases v
  case unknownToken b => cases b <;> exact ⟨_, rfl, rfl⟩
  case incompatibleRoomVersion rv => exact ⟨_, rfl, rfl⟩
  case resourceLimitExceeded ac => exact ⟨_, rfl, rfl⟩
  case limitExceeded o =>
    cases o with
    | none => exact ⟨_, rfl, rfl⟩
    | some d =>
      obtain ⟨hmod, hle⟩ := h
      refine ⟨[("errcode", .str "M_LIMIT_EXCEEDED"),
               ("retry_after_ms", .int (d.asMillis : Int))], ?_, ?_⟩
      · simp [encode, ErrorKind.wireString, Duration.asMillis, hle]
      · have h2 : decode [("errcode", .str "M_LIMIT_EXCEEDED"),
            ("retry_after_ms", .int (d.asMillis : Int))] =
            (parseUInt (.int (d.asMillis : Int))).map
              (fun m =>
                ErrorKind.limitExceeded (some (Duration.fromMillis m))) :=
          rfl
        rw [h2]
        have hc : (0 : Int) ≤ ((d / 1000000 : Nat) : Int) ∧
            ((d / 1000000 : Nat) : Int) ≤ (uintMax : Int) :=
          ⟨Int.natCast_nonneg _, by exact_mod_cast hle⟩
        have h5 : d / 1000000 * 1000000 = d :=
          Nat.div_mul_cancel (Nat.dvd_of_mod_eq_zero hmod)
        simp only [parseUInt, Duration.asMillis, Duration.fromMillis,
          Int.toNat_natCast, if_pos hc, Except.map]
        simp [h5]
  case custom s extra =>
    obtain ⟨hofs, hsort, hkeys⟩ := h
    refine ⟨("errcode", JValue.str s) :: extra, rfl, ?_⟩
    have hndk : "errcode" ∉ extra.map Prod.fst := by
      intro hmem2
      obtain ⟨p, hp, hpe⟩ := List.mem_map.mp hmem2
      have h3 := hkeys p hp
      rw [hpe] at h3
      simp [recognizedKey] at h3
    have hnd : ((("errcode", JValue.str s) :: extra).map Prod.fst).Nodup := by
      simp only [List.map_cons, List.nodup_cons]
      exact ⟨hndk, hsort.imp ne_of_lt⟩
    obtain ⟨st', hloop, he', hrv', hac', hex'⟩ :=
      decodeLoop_char _ DecState.init hnd (by simp [DecState.init])
        (fun n _ => by simp [DecState.init]) (fun _ => rfl) (fun _ => rfl)
        (fun _ => rfl) (fun _ => rfl) (fun _ => rfl)
        (fun w hw => by
          rcases List.mem_cons.mp hw with hw | hw
          · injection hw with h1 h2
            exact ⟨s, h2⟩
          · have h3 := hkeys _ hw
            simp [recognizedKey] at h3)
    rw [findVal_cons_self] at he'
    have he2 : st'.errcode = some (ErrCode.ofString s) := he'
    rw [hofs] at he2
    have hex2 : st'.extra = extra := by
      rw [hex']
      have h4 : collectExtraFrom DecState.init.extra
          (("errcode", JValue.str s) :: extra) = collectExtraFrom [] extra := by
        show collectExtraFrom [] _ = _
        rw [collectExtraFrom_cons_recognized _ _ _ _ (by decide)]
      rw [h4, collectExtraFrom_sorted extra [] hkeys (by simpa using hsort)]
      simp
    unfold decode
    rw [hloop]
    simp [Except.bind, finishDecode, he2, hex2]
  all_goals exact ⟨_, rfl, rfl⟩

/-- Witness for C1 at a concrete round-trippable value: a `custom` error
with an unrecognized discriminant and one extra entry. -/
theorem claim_c1_witness :
    goodKind (.custom "M_SOMETHING_NEW" [("error", JValue.str "x")]) ∧
    ∃ l,
      encode (.custom "M_SOMETHING_NEW" [("error", JValue.str "x")]) =
        .ok l ∧
      decode l = .ok (.custom "M_SOMETHING_NEW" [("error", JValue.str "x")]) := by
  have hg : goodKind (.custom "M_SOMETHING_NEW" [("error", JValue.str "x")]) :=
    ⟨by decide, by simp, by decide⟩
  exact ⟨hg, claim_c1_round_trip _ hg⟩

theorem kidParse_eq_none {α κ : Type} (pA : List Char → Except VError α)
    (pK : List Char → Except VError κ) (s : List Char)
    (h : splitColon s = none) :
    kidParse pA pK s = .error .missingDelimiter := by
  unfold kidParse
  rw [h]

theorem kidParse_eq_some {α κ : Type} (pA : List Char → Except VError α)
    (pK : List Char → Except VError κ) (s alg name : List Char)
    (h : splitColon s = some (alg, name)) :
    kidParse pA pK s =
      (if alg.length = 0 then .error .empty
       else (pA alg).bind (fun _ => (pK name).bind (fun _ =>
         if alg.length ≤ 255 then .ok ⟨s, alg.length⟩
         else .error .identifierTooLong))) := by
  unfold kidParse
  rw [h]

/-- C7: composite key identifier parsing splits the raw string at the first
colon, fails with a missing-delimiter error when there is none, validates
the left part with the algorithm parser and the right part with the name
parser (propagating their errors verbatim), and enforces the one-byte
offset bound: a 255-byte algorithm part succeeds while a 256-byte one fails
with the identifier-too-long error. -/
theorem claim_c7_key_id_parse {α κ : Type} (pA : List Char → Except VError α)
    (pK : List Char → Except VError κ) :
    (∀ s : List Char, ':' ∉ s →
      kidParse pA pK s = .error .missingDelimiter) ∧
    (∀ a b : List Char, ':' ∉ a → a ≠ [] → a.length ≤ 255 →
      kidParse pA pK (a ++ ':' :: b) =
        (pA a).bind (fun _ => (pK b).bind (fun _ =>
          .ok ⟨a ++ ':' :: b, a.length⟩))) ∧
    (∀ (a b : List Char) (x : α) (y : κ), ':' ∉ a → a.length = 255 →
      pA a = .ok x → pK b = .ok y →
      kidParse pA pK (a ++ ':' :: b) = .ok ⟨a ++ ':' :: b, 255⟩) ∧
    (∀ (a b : List Char) (x : α) (y : κ), ':' ∉ a → a.length = 256 →
      pA a = .ok x → pK b = .ok y →
      kidParse pA pK (a ++ ':' :: b) = .error .identifierTooLong) := by
  refine ⟨?_, ?_, ?_, ?_⟩
  · intro s h
    rw [kidParse_eq_none pA pK s (splitColon_eq_none s h)]
  · intro a b ha hne hlen
    rw [kidParse_eq_some pA pK _ a b (splitColon_append a b ha)]
    have h0 : ¬(a.length = 0) := fun h => hne (List.length_eq_zero.mp h)
    simp only [if_neg h0, if_pos hlen]
  · intro a b x y ha hlen hx hy
    rw [kidParse_eq_some pA pK _ a b (splitColon_append a b ha)]
    have h0 : ¬(a.length = 0) := by omega
    rw [if_neg h0, hx, hy]
    simp [Except.bind, hlen]
  · intro a b x y ha hlen hx hy
    rw [kidParse_eq_some pA pK _ a b (splitColon_append a b ha)]
    have h0 : ¬(a.length = 0) := by omega
    have h255 : ¬(a.length ≤ 255) := by omega
    rw [if_neg h0, hx, hy]
    simp [Except.bind, if_neg h255]

set_option maxRecDepth 4096 in
/-- Witness for C7: the concrete strings from the specification — a
colon-free string fails, `"ed25519:1"` splits into `"ed25519"` and `"1"`,
a 255-character algorithm part succeeds and a 256-character one fails —
using permissive component parsers that accept any substring. -/
theorem claim_c7_witness :
    kidParse (fun l => (Except.ok l : Except VError (List Char)))
      (fun l => Except.ok l) ("novalue".toList) =
      .error .missingDelimiter ∧
    kidParse (fun l => (Except.ok l : Except VError (List Char)))
      (fun l => Except.ok l) ("ed25519".toList ++ ':' :: "1".toList) =
      .ok ⟨"ed25519".toList ++ ':' :: "1".toList, ("ed25519".toList).length⟩ ∧
    kidParse (fun l => (Except.ok l : Except VError (List Char)))
      (fun l => Except.ok l) (List.replicate 255 'a' ++ ':' :: "1".toList) =
      .ok ⟨List.replicate 255 'a' ++ ':' :: "1".toList, 255⟩ ∧
    kidParse (fun l => (Except.ok l : Except VError (List Char)))
      (fun l => Except.ok l) (List.replicate 256 'a' ++ ':' :: "1".toList) =
      .error .identifierTooLong := by
  refine ⟨?_, ?_, ?_, ?_⟩
  · exact (claim_c7_key_id_parse _ _).1 _ (by decide)
  · exact (claim_c7_key_id_parse _ _).2.1 ("ed25519".toList) ("1".toList)
      (by decide) (by decide) (by decide)
  · exact (claim_c7_key_id_parse _ _).2.2.1 (List.replicate 255 'a')
      ("1".toList) (List.replicate 255 'a') ("1".toList)
      (by simp [List.mem_replicate]) (by simp) rfl rfl
  · exact (claim_c7_key_id_parse _ _).2.2.2 (List.replicate 256 'a')
      ("1".toList) (List.replicate 256 'a') ("1".toList)
      (by simp [List.mem_replicate]) (by simp) rfl rfl

/-- C8: equality of composite key identifiers holds exactly when the packed
strings are equal, the ordering coincides with the lexicographic ordering of
the packed strings, and equal packed strings hash equally — the stored
offset (hence the parsed components) never enters. -/
theorem claim_c8_string_semantics (a b : KeyId) :
    (kidBEq a b = true ↔ a.full_id = b.full_id) ∧
    (kidCmp a b = .eq ↔ a.full_id = b.full_id) ∧
    (kidCmp a b = .lt ↔ List.Lex (· < ·) a.full_id b.full_id) ∧
    (a.full_id = b.full_id → kidHash a = kidHash b) := by
  refine ⟨?_, ?_, ?_, ?_⟩
  · simp [kidBEq]
  · exact compareList_eq_iff _ _
  · exact compareList_lt_iff _ _
  · intro h
    simp [kidHash, h]

/-- Witness for C8: two identifiers with the same packed string but
different stored offsets compare equal and hash equally. -/
theorem claim_c8_witness :
    kidBEq ⟨"a:b:c".toList, 1⟩ ⟨"a:b:c".toList, 3⟩ = true ∧
    kidHash ⟨"a:b:c".toList, 1⟩ = kidHash ⟨"a:b:c".toList, 3⟩ := by
  constructor
  · exact (claim_c8_string_semantics ⟨"a:b:c".toList, 1⟩
      ⟨"a:b:c".toList, 3⟩).1.mpr rfl
  · exact (claim_c8_string_semantics ⟨"a:b:c".toList, 1⟩
      ⟨"a:b:c".toList, 3⟩).2.2.2 rfl

/-- C9: every successfully constructed composite key identifier — through
`from_parts` or through parsing — has a strictly positive stored offset of
at most 255, and the accessors' component reparses succeed (the internal
unwraps cannot panic), assuming each component parser accepts its own
previously validated string form. -/
theorem claim_c9_invariant {α κ : Type} (pA : List Char → Except VError α)
    (pK : List Char → Except VError κ) (strA : α → List Char)
    (strK : κ → List Char)
    (hA : ∀ x, pA (strA x) = .ok x) (hK : ∀ y, pK (strK y) = .ok y) :
    (∀ (x : α) (y : κ) (kid : KeyId), kidFromParts strA strK x y = some kid →
      0 < kid.colon_idx ∧ kid.colon_idx ≤ 255 ∧
      kidAlgorithm pA kid = .ok x ∧ kidKeyName pK kid = .ok y) ∧
    (∀ (s : List Char) (kid : KeyId), kidParse pA pK s = .ok kid →
      0 < kid.colon_idx ∧ kid.colon_idx ≤ 255 ∧
      (kidAlgorithm pA kid).isOk = true ∧
      (kidKeyName pK kid).isOk = true) := by
  constructor
  · intro x y kid hk
    rw [kidFromParts] at hk
    by_cases hc : (strA x).length = 0 ∨ 255 < (strA x).length
    · rw [if_pos hc] at hk
      exact Option.noConfusion hk
    · rw [if_neg hc] at hk
      push_neg at hc
      injection hk with hk
      subst hk
      refine ⟨Nat.pos_of_ne_zero hc.1, hc.2, ?_, ?_⟩
      · rw [kidAlgorithm]
        show pA ((strA x ++ ':' :: strK y).take (strA x).length) = .ok x
        rw [List.take_left]
        exact hA x
      · rw [kidKeyName]
        show pK ((strA x ++ ':' :: strK y).drop ((strA x).length + 1)) = .ok y
        rw [drop_append_cons]
        exact hK y
  · intro s kid hk
    cases hsp : splitColon s with
    | none =>
      rw [kidParse_eq_none pA pK s hsp] at hk
      exact Except.noConfusion hk
    | some p =>
      obtain ⟨alg, name⟩ := p
      rw [kidParse_eq_some pA pK s alg name hsp] at hk
      by_cases h0 : alg.length = 0
      · rw [if_pos h0] at hk
        exact Except.noConfusion hk
      · rw [if_neg h0] at hk
        obtain ⟨xa, hxa, hk2⟩ := except_bind_ok _ _ _ hk
        obtain ⟨xk, hxk, hk3⟩ := except_bind_ok _ _ _ hk2
        by_cases h255 : alg.length ≤ 255
        · rw [if_pos h255] at hk3
          injection hk3 with hk3
          subst hk3
          have hs := splitColon_some s alg name hsp
          refine ⟨Nat.pos_of_ne_zero h0, h255, ?_, ?_⟩
          · rw [kidAlgorithm]
            show (pA ((s).take alg.length)).isOk = true
            rw [hs, List.take_left, hxa]
            rfl
          · rw [kidKeyName]
            show (pK ((s).drop (alg.length + 1))).isOk = true
            rw [hs, drop_append_cons, hxk]
            rfl
        · rw [if_neg h255] at hk3
          exact Except.noConfusion hk3

/-- Witness for C9: the identifier built by `from_parts` from `"ed25519"`
and `"1"` (with identity component parsers) satisfies the offset bounds and
both accessors reparse successfully. -/
theorem claim_c9_witness :
    0 < (KeyId.mk ("ed25519".toList ++ ':' :: "1".toList)
      (("ed25519".toList).length)).colon_idx ∧
    (KeyId.mk ("ed25519".toList ++ ':' :: "1".toList)
      (("ed25519".toList).length)).colon_idx ≤ 255 ∧
    kidAlgorithm (fun l => (Except.ok l : Except VError (List Char)))
      (KeyId.mk ("ed25519".toList ++ ':' :: "1".toList)
        (("ed25519".toList).length)) = .ok ("ed25519".toList) ∧
    kidKeyName (fun l => (Except.ok l : Except VError (List Char)))
      (KeyId.mk ("ed25519".toList ++ ':' :: "1".toList)
        (("ed25519".toList).length)) = .ok ("1".toList) := by
  exact (claim_c9_invariant (fun l => Except.ok l) (fun l => Except.ok l)
    (fun l => l) (fun l => l) (fun _ => rfl) (fun _ => rfl)).1
    ("ed25519".toList) ("1".toList) _ rfl

end Ruma
